import Mathlib

/-!
A shallow embedding of the distance-estimation pipeline of the
Sensor_Comparison_Tool repository (`example_basic_service_lookup_table.c`
and `example_lookup_table.h`), together with theorems settling the claims
about it.  Machine floats are modelled as rational numbers, machine
integers as `Nat`/`Int` with explicit reduction mod 2^16 where the C code
stores into a `uint16_t`.
-/

namespace SensorComparison

/-- Embeds the divisor computation shared by `run_simple_threshold_algo`
(lines 378-383) and `run_delay_n_compare_algo` (lines 467-472):
`uint16_t divisor = (-15 * temp) + 1600; if (divisor < 0) divisor = 1; else divisor = round(divisor);`
The `int` expression `(-15 * temp) + 1600` is stored into a `uint16_t`,
i.e. reduced mod 2^16; the `divisor < 0` comparison is then performed on
that unsigned value (a `Nat` here, exactly as unsigned in C), and
`round` of an integral value is the value itself. -/
def divisor_c (temp : ℕ) : ℕ :=
  let d : ℕ := ((1600 - 15 * (temp : ℤ)) % 65536).toNat
  if d < 0 then 1 else d

/-- The divisor as the specification words it:
`round(-15 * temperature + 1600)`, clamped to a minimum of 1. -/
def divisor_spec (temp : ℕ) : ℤ :=
  max 1 (1600 - 15 * (temp : ℤ))

/-- The configuration fields of `PrintDataConfig` used by the estimator
(range geometry and the three piecewise-linear threshold segments). -/
structure PrintDataConfig where
  rf_factor : ℚ
  num_points : ℕ
  sweeps_per_frame : ℕ
  step : ℚ
  start_point : ℚ
  x_intercepts0 : ℚ
  x_intercepts1 : ℚ
  x_intercepts2 : ℚ
  x_intercepts3 : ℚ
  line1_slope : ℚ
  y_inter_line1 : ℚ
  line2_slope : ℚ
  y_inter_line2 : ℚ
  line3_slope : ℚ
  y_inter_line3 : ℚ
deriving DecidableEq

/-- The `ProcessedData` output record (`processed_data.h` fields as used
by `run_simple_threshold_algo`). -/
structure ProcessedData where
  divisor : ℕ
  first_threshold_x : ℕ
  first_threshold_y : ℕ
  max_amplitude : ℕ
  temp : ℕ
  threshold_crossed : ℕ
  selected_distance : ℕ
deriving DecidableEq

/-- `float rf_factor_step = 0.0025 / print_data_config->rf_factor;` (line 375). -/
def rf_factor_step (cfg : PrintDataConfig) : ℚ := 0.0025 / cfg.rf_factor

/-- The amplitude stored into `amplitudes[sweep_index]` (line 403):
`(data[i].real * data[i].real + data[i].imag * data[i].imag) / divisor`,
`int` arithmetic truncated by the integer division and stored into a
`uint32_t`.  The frame is a function from sample index to the
(real, imag) pair of `int16_t` values. -/
def amplitudes (frame : ℕ → ℤ × ℤ) (divisor : ℕ) (i : ℕ) : ℕ :=
  ((frame i).1 * (frame i).1 + (frame i).2 * (frame i).2).toNat / divisor

/-- The distance stored into `distances[sweep_index]` (line 409):
`(sweep_index * rf_factor_step * step) + (start_point * rf_factor_step)`. -/
def distances (cfg : PrintDataConfig) (i : ℕ) : ℚ :=
  (i : ℚ) * rf_factor_step cfg * cfg.step + cfg.start_point * rf_factor_step cfg

/-- The piecewise-linear threshold evaluation (lines 412-425): each of the
three segments is selected by the `x_intercepts` range containing the
distance; outside all three, the threshold stays 0. -/
def threshold_at (cfg : PrintDataConfig) (d : ℚ) : ℚ :=
  if cfg.x_intercepts0 ≤ d ∧ d ≤ cfg.x_intercepts1 then
    d * cfg.line1_slope + cfg.y_inter_line1
  else if cfg.x_intercepts1 < d ∧ d ≤ cfg.x_intercepts2 then
    d * cfg.line2_slope + cfg.y_inter_line2
  else if cfg.x_intercepts2 < d ∧ d ≤ cfg.x_intercepts3 then
    d * cfg.line3_slope + cfg.y_inter_line3
  else 0

/-- The mutable locals of the scan loop of `run_simple_threshold_algo`
(lines 391-398). -/
structure ScanState where
  first_threshold_index : ℕ
  first_threshold_x : ℚ
  first_threshold_y : ℚ
  first_below_threshold_x : ℚ
  first_below_threshold_y : ℚ
  threshold_crossed : ℚ
  max_amplitude : ℚ
deriving DecidableEq

/-- All scan locals start at 0 (lines 391-398). -/
def initScanState : ScanState := ⟨0, 0, 0, 0, 0, 0, 0⟩

/-- One iteration of the scan loop body (lines 402-439).  Returns the
updated state and whether the `break` was taken.  `amplitudes[i-1]` and
`distances[i-1]` read at the crossing are the values computed at the
previous iteration, i.e. `amplitudes frame divisor (i-1)` and
`distances cfg (i-1)`. -/
def scanStep (cfg : PrintDataConfig) (frame : ℕ → ℤ × ℤ) (divisor : ℕ)
    (i : ℕ) (s : ScanState) : ScanState × Bool :=
  let amplitude : ℕ := amplitudes frame divisor i
  let maxAmp : ℚ :=
    if s.max_amplitude < (amplitude : ℚ) then (amplitude : ℚ) else s.max_amplitude
  let d : ℚ := distances cfg i
  let t : ℚ := threshold_at cfg d
  if s.first_threshold_x = 0 ∧ 0 < (amplitude : ℚ) - t then
    ({ first_threshold_index := i
       first_threshold_x := d
       first_threshold_y := (amplitude : ℚ)
       first_below_threshold_x :=
         if 0 < i then distances cfg (i - 1) else s.first_below_threshold_x
       first_below_threshold_y :=
         if 0 < i then (amplitudes frame divisor (i - 1) : ℚ) else s.first_below_threshold_y
       threshold_crossed := t
       max_amplitude := maxAmp }, true)
  else ({ s with max_amplitude := maxAmp }, false)

/-- The scan loop `for (sweep_index = 0; sweep_index < num_points; ...)`
(line 402), with early exit on the `break`.  `rem` is the number of
indices still to visit. -/
def scanLoop (cfg : PrintDataConfig) (frame : ℕ → ℤ × ℤ) (divisor : ℕ) :
    ℕ → ℕ → ScanState → ScanState
  | _, 0, s => s
  | i, rem + 1, s =>
    let r := scanStep cfg frame divisor i s
    if r.2 then r.1 else scanLoop cfg frame divisor (i + 1) rem r.1

/-- The exact-match scan of `getNearestDistance` (`example_lookup_table.h`
lines 44-48); a table is the list of `(positions[i], distances[i])` pairs. -/
def findExact : List (ℚ × ℚ) → ℚ → Option ℚ
  | [], _ => none
  | e :: rest, p => if e.1 = p then some e.2 else findExact rest p

/-- The interpolation scan of `getNearestDistance` (lines 59-72): the
first adjacent pair strictly bracketing the position is interpolated;
falling off the end yields the `-1.0` sentinel. -/
def interpScan : List (ℚ × ℚ) → ℚ → ℚ
  | e1 :: e2 :: rest, p =>
    if e1.1 < p ∧ p < e2.1 then
      e1.2 + (e2.2 - e1.2) * (p - e1.1) / (e2.1 - e1.1)
    else interpScan (e2 :: rest) p
  | _, _ => -1

/-- `getNearestDistance` (`example_lookup_table.h` lines 40-73): `-1.0`
for an empty table; exact match first; clamp below the first and at or
above the last position; otherwise linear interpolation. -/
def getNearestDistance (table : List (ℚ × ℚ)) (p : ℚ) : ℚ :=
  match table with
  | [] => -1
  | e0 :: rest =>
    match findExact (e0 :: rest) p with
    | some y => y
    | none =>
      if p ≤ e0.1 then e0.2
      else if (rest.getLastD e0).1 ≤ p then (rest.getLastD e0).2
      else interpScan (e0 :: rest) p

/-- The generated coarse position-distance table of
`example_lookup_table.h` (lines 12-27), as (position, distance) pairs. -/
def lookupTable : List (ℚ × ℚ) :=
  [(10.50, 10.45), (20.75, 20.78), (30.25, 30.22), (40.00, 40.03), (50.15, 50.12)]

/-- Modelled from the spec: the fine-grained error-correction function
`applyCorrectedDistance` lives in `error_correction_table.h`, which is not
among the sources; per §4.3 it "maps raw distance to a corrected distance
via its own interpolation rule", so it is taken here as an arbitrary
function parameter `applyCorrectedDistance` and the theorems below hold
for every such rule.  The rest of this definition embeds
`apply_distance_correction` (`example_basic_service_lookup_table.c` lines
602-638), in the branch compiled for this repository, where both
`ERROR_TABLE_SIZE` and `LOOKUP_TABLE_SIZE` are defined and
`lookup_tables_available()` is true. -/
def apply_distance_correction (applyCorrectedDistance : ℚ → ℚ)
    (table : List (ℚ × ℚ)) (raw_distance_mm : ℚ) : ℚ :=
  let corrected_distance := applyCorrectedDistance raw_distance_mm
  let lookup_distance := getNearestDistance table corrected_distance
  if 0 < lookup_distance then
    let difference :=
      if corrected_distance < lookup_distance then lookup_distance - corrected_distance
      else corrected_distance - lookup_distance
    if 2 < difference then lookup_distance else corrected_distance
  else corrected_distance

/-- The single-table branch of `apply_distance_correction` (lines
630-636, compiled when only `LOOKUP_TABLE_SIZE` is defined):
`return (lookup_distance > 0) ? lookup_distance : raw_distance_mm;`. -/
def apply_distance_correction_lookup_only (table : List (ℚ × ℚ))
    (raw_distance_mm : ℚ) : ℚ :=
  let lookup_distance := getNearestDistance table raw_distance_mm
  if 0 < lookup_distance then lookup_distance else raw_distance_mm

/-- The C cast `(uint32_t)` of a float value: truncation toward zero. -/
def toU32 (x : ℚ) : ℕ := (x.num.tdiv (x.den : ℤ)).toNat

/-- Embeds `run_simple_threshold_algo` (lines 373-461).  The return value
is paired with the `ProcessedData` record as left after the call; the
invalid result is return value 0 with `proc_data` untouched. -/
def run_simple_threshold_algo (cfg : PrintDataConfig)
    (applyCorrectedDistance : ℚ → ℚ) (frame : ℕ → ℤ × ℤ)
    (data_length : ℕ) (temp : ℕ) (proc_data : ProcessedData) :
    ℕ × ProcessedData :=
  let divisor := divisor_c temp
  if data_length = cfg.num_points * cfg.sweeps_per_frame then
    let s := scanLoop cfg frame divisor 0 cfg.num_points initScanState
    if s.first_threshold_index ≠ 0 then
      let selected : ℚ :=
        s.first_below_threshold_x +
          (s.threshold_crossed - s.first_below_threshold_y) /
              (s.first_threshold_y - s.first_below_threshold_y) *
            (s.first_threshold_x - s.first_below_threshold_x)
      let corrected_distance_mm :=
        apply_distance_correction applyCorrectedDistance lookupTable (selected * 1000)
      let selected2 := corrected_distance_mm / 1000
      let distance : ℕ := toU32 (selected2 * 10000)
      (distance,
       { proc_data with
         selected_distance := distance
         divisor := divisor
         first_threshold_x := toU32 (s.first_threshold_x * 10000)
         first_threshold_y := toU32 s.first_threshold_y
         max_amplitude := toU32 s.max_amplitude })
    else (0, proc_data)
  else (0, proc_data)

/-- Modelled from the spec: the FIFO buffer of `fifo_buff.h` is not among
the sources; per §4.4 it is a fixed-capacity sequence, oldest first.
`isFull` tests whether the buffer is at its capacity. -/
def isFull (cap : ℕ) (buf : List ℚ) : Bool := buf.length = cap

/-- Modelled from the spec: `dequeue` of `fifo_buff.h` evicts the oldest
(front) entry. -/
def dequeue (buf : List ℚ) : List ℚ := buf.tail

/-- Modelled from the spec: `enqueue` of `fifo_buff.h` inserts the new
value behind the newest entry. -/
def enqueue (buf : List ℚ) (v : ℚ) : List ℚ := buf ++ [v]

/-- Modelled from the spec: `getAverage` of `fifo_buff.h` is the
arithmetic mean of all held entries, guarded to 0 on an empty buffer. -/
def getAverage (buf : List ℚ) : ℚ :=
  if buf.length = 0 then 0 else buf.sum / (buf.length : ℚ)

/-- The FIFO update performed once per frame by `acc_service` (lines
239-243): `if (isFull(&b)) dequeue(&b); enqueue(&b, distance);`. -/
def fifo_push (cap : ℕ) (buf : List ℚ) (v : ℚ) : List ℚ :=
  enqueue (if isFull cap buf then dequeue buf else buf) v

/-- The smoothing portion of one frame cycle of `acc_service` (lines
238-251): push the estimator's result, then aggregate according to
`avg_type` (1 = simple average, 2 = weighted average — whose exact curve
is configuration, taken here as the function `wavg` — else passthrough).
Returns the buffer contents and the aggregate `avg_distance`. -/
def acc_frame_cycle (cap : ℕ) (wavg : List ℚ → ℚ) (avg_type : ℕ)
    (buf : List ℚ) (distance : ℚ) : List ℚ × ℚ :=
  let buf2 := fifo_push cap buf distance
  let avg_distance :=
    if avg_type = 1 then getAverage buf2
    else if avg_type = 2 then wavg buf2
    else distance
  (buf2, avg_distance)

/-- Call counters for the sensor-lifecycle primitives. -/
structure CalStats where
  calibrate_calls : ℕ
  power_cycles : ℕ
  wait_calls : ℕ
deriving DecidableEq

/-- All counters at zero. -/
def initCalStats : CalStats := ⟨0, 0, 0⟩

/-- The inner `do { ... } while (status && !cal_complete)` of
`do_sensor_calibration_and_prepare` (lines 350-358).  `cal` maps the
calibrate-call number to the `(status, cal_complete)` pair that
`acc_sensor_calibrate` produces; `wait` maps the wait-call number to the
result of `acc_hal_integration_wait_for_sensor_interrupt`.  `fuel` bounds
the unboundedly-looping C code; every theorem using this holds for any
sufficient fuel.  Returns `(status, cal_complete, counters)`. -/
def calibrationInner (cal : ℕ → Bool × Bool) (wait : ℕ → Bool) :
    ℕ → CalStats → Bool × Bool × CalStats
  | 0, st => (false, false, st)
  | fuel + 1, st =>
    let r := cal st.calibrate_calls
    let st1 : CalStats := { st with calibrate_calls := st.calibrate_calls + 1 }
    let status := r.1
    let cal_complete := r.2
    let stepped : Bool × CalStats :=
      if status && !cal_complete then
        (wait st1.wait_calls, { st1 with wait_calls := st1.wait_calls + 1 })
      else (status, st1)
    if stepped.1 && !cal_complete then calibrationInner cal wait fuel stepped.2
    else (stepped.1, cal_complete, stepped.2)

/-- The outer `for (i = 0; !status && (i <= calibration_retries); i++)`
of `do_sensor_calibration_and_prepare` (lines 344-359): each iteration
first power-cycles the sensor (disable then enable, counted as one
power cycle) and then runs the inner calibration loop.  `k` is the number
of loop indices still allowed (`calibration_retries + 1 - i`). -/
def calibrationLoop (cal : ℕ → Bool × Bool) (wait : ℕ → Bool) (fuel : ℕ) :
    ℕ → Bool → CalStats → Bool × CalStats
  | 0, status, st => (status, st)
  | k + 1, status, st =>
    if status then (status, st)
    else
      let st1 : CalStats := { st with power_cycles := st.power_cycles + 1 }
      let r := calibrationInner cal wait fuel st1
      calibrationLoop cal wait fuel k r.1 r.2.2

/-- Embeds `do_sensor_calibration_and_prepare` (lines 336-371) with
`calibration_retries = 1` as in the code.  On calibration success the
sensor is power-cycled once more and `acc_sensor_prepare` is invoked,
whose result (`prepare_ok`) becomes the return status.  Returns
`(status, counters, prepare-was-invoked)`. -/
def do_sensor_calibration_and_prepare (cal : ℕ → Bool × Bool)
    (wait : ℕ → Bool) (prepare_ok : Bool) (fuel : ℕ) :
    Bool × CalStats × Bool :=
  let calibration_retries : ℕ := 1
  let r := calibrationLoop cal wait fuel (calibration_retries + 1) false initCalStats
  if r.1 then
    (prepare_ok, { r.2 with power_cycles := r.2.power_cycles + 1 }, true)
  else (false, r.2, false)

/-- A concrete configuration for the concrete-input theorems: distances
come out as `i + 1` metres, the first threshold segment covers [0, 10]
with slope -100 and intercept 250, so the thresholds at the first two
points are 150 and 50. -/
def cfgA : PrintDataConfig :=
  { rf_factor := 0.0025
    num_points := 2
    sweeps_per_frame := 1
    step := 1
    start_point := 1
    x_intercepts0 := 0
    x_intercepts1 := 10
    x_intercepts2 := 20
    x_intercepts3 := 30
    line1_slope := -100
    y_inter_line1 := 250
    line2_slope := 0
    y_inter_line2 := 0
    line3_slope := 0
    y_inter_line3 := 0 }

/-- A `ProcessedData` record with every field zero (as initialised by
`acc_service`, lines 171-179). -/
def procInit : ProcessedData := ⟨0, 0, 0, 0, 0, 0, 0⟩

/-- A frame whose every sample is `100 + 0i`: with divisor 100 every
amplitude is 100. -/
def frameFlat : ℕ → ℤ × ℤ := fun _ => (100, 0)

/-- A frame whose every sample is `0 + 0i`: every amplitude is 0 and the
threshold is never crossed. -/
def frameZero : ℕ → ℤ × ℤ := fun _ => (0, 0)

/-- A frame whose every sample is `200 + 0i`: with divisor 100 every
amplitude is 400, so the threshold is crossed already at index 0. -/
def frameLoud : ℕ → ℤ × ℤ := fun _ => (200, 0)

/-- C1: the claim states that the divisor equals round(-15*t + 1600)
clamped to a minimum of 1, and in particular is always ≥ 1.  In the code
the clamp `if (divisor < 0)` compares an unsigned `uint16_t` and is dead,
so the divisor actually is `(1600 - 15*t) mod 2^16`: at temperature 21952
it is 0 (the clamp the spec describes would give 1, and division by this
divisor is division by zero), and at temperature 107 it is 65531 where
the spec-described value is 1. -/
theorem C1_divisor_clamp_is_dead :
    divisor_c 21952 = 0 ∧ divisor_spec 21952 = 1 ∧
    divisor_c 107 = 65531 ∧ divisor_spec 107 = 1 := by
  decide

/-- C2: a frame in which no threshold crossing is found yields the
estimator's invalid result (return value 0, `ProcessedData` untouched),
yet the frame cycle of `acc_service` unconditionally enqueues that
sentinel into the FIFO buffer — here with capacity 3 and simple-average
mode, a buffer holding 100 becomes [100, 0] and its aggregate drops from
100 to 50, so the invalid frame does affect the smoothing stage. -/
theorem C2_invalid_sentinel_is_enqueued :
    run_simple_threshold_algo cfgA (fun x => x) frameZero
      (cfgA.num_points * cfgA.sweeps_per_frame) 100 procInit = (0, procInit) ∧
    acc_frame_cycle 3 (fun _ => 0) 1 [100] 0 = ([100, 0], 50) := by
  constructor
  · norm_num [run_simple_threshold_algo, scanLoop, scanStep, initScanState,
      amplitudes, distances, rf_factor_step, threshold_at, cfgA, frameZero, divisor_c,
      Int.toNat_zero]
  · norm_num [acc_frame_cycle, fifo_push, isFull, enqueue, dequeue, getAverage]

/-- C3: on a well-formed frame whose crossing at index 1 has the same
amplitude as the preceding (below-threshold) sample, the scan records
`first_threshold_index = 1 ≠ 0` — so the estimator takes the
interpolation branch and performs the division — while the denominator
`first_threshold_y - first_below_threshold_y` it divides by is 0: the
division is not guarded and the estimator does not skip or invalidate
this frame. -/
theorem C3_zero_denominator_division_not_guarded :
    2 = cfgA.num_points * cfgA.sweeps_per_frame ∧
    (scanLoop cfgA frameFlat (divisor_c 100) 0 cfgA.num_points
        initScanState).first_threshold_index = 1 ∧
    (scanLoop cfgA frameFlat (divisor_c 100) 0 cfgA.num_points
        initScanState).first_threshold_y -
      (scanLoop cfgA frameFlat (divisor_c 100) 0 cfgA.num_points
        initScanState).first_below_threshold_y = 0 := by
  refine ⟨by norm_num [cfgA], ?_, ?_⟩ <;>
  · simp [scanLoop, scanStep, initScanState, amplitudes, distances,
      rf_factor_step, threshold_at, cfgA, frameFlat, divisor_c]
    norm_num

/-- C4: whenever the scan's first threshold crossing occurs at sample
index 0 (the amplitude at index 0 already exceeds its threshold), the
crossing index keeps its sentinel value 0, so the estimator returns the
invalid result 0 without interpolation or correction and leaves the
`ProcessedData` record unchanged. -/
theorem C4_crossing_at_index_zero_is_invalid (cfg : PrintDataConfig)
    (applyCorrectedDistance : ℚ → ℚ) (frame : ℕ → ℤ × ℤ) (temp : ℕ)
    (proc_data : ProcessedData) (hnp : 0 < cfg.num_points)
    (hcross : 0 < ((amplitudes frame (divisor_c temp) 0 : ℚ) -
      threshold_at cfg (distances cfg 0))) :
    run_simple_threshold_algo cfg applyCorrectedDistance frame
      (cfg.num_points * cfg.sweeps_per_frame) temp proc_data = (0, proc_data) := by
  obtain ⟨k, hk⟩ := Nat.exists_eq_succ_of_ne_zero hnp.ne'
  have hbr : (scanStep cfg frame (divisor_c temp) 0 initScanState).2 = true := by
    simp [scanStep, initScanState, hcross]
  have hidx :
      (scanStep cfg frame (divisor_c temp) 0 initScanState).1.first_threshold_index = 0 := by
    simp [scanStep, initScanState, hcross]
  simp [run_simple_threshold_algo, hk, scanLoop, hbr, hidx]

/-- Witness for C4: with `cfgA` and the loud frame, the amplitude at
index 0 is 400 against a threshold of 150, and the estimator returns the
invalid result. -/
theorem C4_crossing_at_index_zero_is_invalid_witness :
    0 < cfgA.num_points ∧
    (0 < ((amplitudes frameLoud (divisor_c 100) 0 : ℚ) -
      threshold_at cfgA (distances cfgA 0))) ∧
    run_simple_threshold_algo cfgA (fun x => x) frameLoud
      (cfgA.num_points * cfgA.sweeps_per_frame) 100 procInit = (0, procInit) :=
  ⟨by decide, by
    simp [amplitudes, frameLoud, divisor_c, threshold_at, distances,
      rf_factor_step, cfgA]
    norm_num,
   C4_crossing_at_index_zero_is_invalid cfgA (fun x => x) frameLoud 100 procInit
     (by decide)
     (by
      simp [amplitudes, frameLoud, divisor_c, threshold_at, distances,
        rf_factor_step, cfgA]
      norm_num)⟩

/-- C5: a frame whose sample count differs from
`num_points * sweeps_per_frame` is rejected: the estimator returns the
invalid result 0, never enters the threshold scan, and leaves the
`ProcessedData` record unchanged. -/
theorem C5_malformed_frame_rejected (cfg : PrintDataConfig)
    (applyCorrectedDistance : ℚ → ℚ) (frame : ℕ → ℤ × ℤ)
    (data_length temp : ℕ) (proc_data : ProcessedData)
    (h : data_length ≠ cfg.num_points * cfg.sweeps_per_frame) :
    run_simple_threshold_algo cfg applyCorrectedDistance frame data_length temp proc_data
      = (0, proc_data) := by
  simp [run_simple_threshold_algo, h]

/-- Witness for C5 at a concrete malformed input: `cfgA` expects 2
samples; 3 are supplied. -/
theorem C5_malformed_frame_rejected_witness :
    (3 ≠ cfgA.num_points * cfgA.sweeps_per_frame) ∧
    run_simple_threshold_algo cfgA (fun x => x) frameZero 3 100 procInit = (0, procInit) :=
  ⟨by decide,
   C5_malformed_frame_rejected cfgA (fun x => x) frameZero 3 100 procInit (by decide)⟩

/-- When the calibrate primitive fails, the inner do-while performs
exactly one calibrate call, no wait, and reports failure (any positive
fuel). -/
theorem calibrationInner_always_fails (cal : ℕ → Bool × Bool) (wait : ℕ → Bool)
    (hfail : ∀ n, (cal n).1 = false) (f : ℕ) (st : CalStats) :
    calibrationInner cal wait (f + 1) st =
      (false, (cal st.calibrate_calls).2,
        { st with calibrate_calls := st.calibrate_calls + 1 }) := by
  simp [calibrationInner, hfail st.calibrate_calls]

/-- C6: with the calibrate primitive failing on every call and the
code's retry count of 1, `do_sensor_calibration_and_prepare` performs
exactly 2 calibration attempts — 2 power cycles, each followed by one
calibrate call and no wait — returns failure, and never invokes the
prepare primitive. -/
theorem C6_two_attempts_failure_no_prepare (cal : ℕ → Bool × Bool)
    (wait : ℕ → Bool) (prepare_ok : Bool) (fuel : ℕ)
    (hfail : ∀ n, (cal n).1 = false) (hfuel : 1 ≤ fuel) :
    do_sensor_calibration_and_prepare cal wait prepare_ok fuel =
      (false, ⟨2, 2, 0⟩, false) := by
  obtain ⟨f, rfl⟩ : ∃ f, fuel = f + 1 := ⟨fuel - 1, by omega⟩
  have hstep : ∀ (k : ℕ) (st : CalStats),
      calibrationLoop cal wait (f + 1) (k + 1) false st =
        calibrationLoop cal wait (f + 1) k false
          { st with calibrate_calls := st.calibrate_calls + 1
                    power_cycles := st.power_cycles + 1 } := by
    intro k st
    simp [calibrationLoop, calibrationInner_always_fails cal wait hfail f]
  simp only [do_sensor_calibration_and_prepare]
  rw [show (1 + 1 : ℕ) = 0 + 1 + 1 from rfl, hstep, hstep]
  simp [calibrationLoop, initCalStats]

/-- Witness for C6: the constantly-failing calibrate oracle with fuel 5. -/
theorem C6_two_attempts_failure_no_prepare_witness :
    (∀ n : ℕ, ((fun _ : ℕ => ((false : Bool), (false : Bool))) n).1 = false) ∧
    (1 ≤ 5) ∧
    do_sensor_calibration_and_prepare (fun _ => (false, false)) (fun _ => true) true 5 =
      (false, ⟨2, 2, 0⟩, false) :=
  ⟨fun _ => rfl, by norm_num,
   C6_two_attempts_failure_no_prepare (fun _ => (false, false)) (fun _ => true) true 5
     (fun _ => rfl) (by norm_num)⟩

/-- Pushing onto a buffer within capacity keeps it within capacity. -/
theorem fifo_push_length_le (cap : ℕ) (hcap : 1 ≤ cap) (buf : List ℚ) (v : ℚ)
    (h : buf.length ≤ cap) : (fifo_push cap buf v).length ≤ cap := by
  unfold fifo_push enqueue dequeue isFull
  by_cases hfull : buf.length = cap
  · simp [hfull, List.length_tail]
    omega
  · simp [hfull]
    omega

/-- Any sequence of pushes starting within capacity stays within
capacity. -/
theorem foldl_fifo_push_length_le (cap : ℕ) (hcap : 1 ≤ cap) :
    ∀ (vs : List ℚ) (buf : List ℚ), buf.length ≤ cap →
      (vs.foldl (fifo_push cap) buf).length ≤ cap
  | [], _, h => by simpa using h
  | v :: vs, buf, h => by
    simpa using foldl_fifo_push_length_le cap hcap vs (fifo_push cap buf v)
      (fifo_push_length_le cap hcap buf v h)

/-- While the buffer stays under capacity, pushes append without
eviction. -/
theorem foldl_fifo_push_fill (cap : ℕ) :
    ∀ (vs buf : List ℚ), buf.length + vs.length ≤ cap →
      vs.foldl (fifo_push cap) buf = buf ++ vs
  | [], buf, _ => by simp
  | v :: vs, buf, h => by
    have hlt : buf.length < cap := by
      simp only [List.length_cons] at h
      omega
    have hpush : fifo_push cap buf v = buf ++ [v] := by
      unfold fifo_push enqueue isFull
      simp [Nat.ne_of_lt hlt]
    have hle : (buf ++ [v]).length + vs.length ≤ cap := by
      simp only [List.length_cons] at h
      simp only [List.length_append, List.length_cons, List.length_nil]
      omega
    rw [List.foldl_cons, hpush, foldl_fifo_push_fill cap vs (buf ++ [v]) hle]
    simp

/-- C9: the smoothing buffer never exceeds its configured capacity under
any sequence of pushes; pushing `cap` values from empty fills it exactly
with those values, and a push onto a full buffer first evicts the oldest
(front) entry and then appends the new value. -/
theorem C9_fifo_capacity_invariant (cap : ℕ) (hcap : 1 ≤ cap) :
    (∀ vs : List ℚ, (vs.foldl (fifo_push cap) []).length ≤ cap) ∧
    (∀ vs : List ℚ, vs.length = cap → vs.foldl (fifo_push cap) [] = vs) ∧
    (∀ (buf : List ℚ) (v : ℚ), buf.length = cap →
      fifo_push cap buf v = buf.tail ++ [v]) := by
  refine ⟨fun vs => foldl_fifo_push_length_le cap hcap vs [] (by simp),
          fun vs hlen => by simpa using foldl_fifo_push_fill cap vs [] (by simp [hlen]),
          fun buf v hlen => ?_⟩
  unfold fifo_push enqueue dequeue isFull
  simp [hlen]

/-- Witness for C9 at capacity 2: three pushes stay within capacity, and
a push onto the full buffer [5, 6] evicts the 5. -/
theorem C9_fifo_capacity_invariant_witness :
    (1 ≤ 2) ∧ (([(1 : ℚ), 2, 3].foldl (fifo_push 2) []).length ≤ 2) ∧
    fifo_push 2 [(5 : ℚ), 6] 7 = [(5 : ℚ), 6].tail ++ [7] :=
  ⟨by norm_num, (C9_fifo_capacity_invariant 2 (by norm_num)).1 [1, 2, 3],
   (C9_fifo_capacity_invariant 2 (by norm_num)).2.2 [5, 6] 7 (by simp)⟩

/-- The strictly-increasing-positions ordering on table entries. -/
def posLt (a b : ℚ × ℚ) : Prop := a.1 < b.1

instance (a b : ℚ × ℚ) : Decidable (posLt a b) :=
  inferInstanceAs (Decidable (a.1 < b.1))

instance : IsTrans (ℚ × ℚ) posLt := ⟨fun _ _ _ h1 h2 => lt_trans h1 h2⟩

/-- Adjacent strict increase of the positions gives pairwise strict
increase. -/
theorem chain'_posLt_pairwise {l : List (ℚ × ℚ)} (h : List.Chain' posLt l) :
    l.Pairwise posLt :=
  List.chain'_iff_pairwise.mp h

/-- If no entry's position equals the query, the exact-match scan finds
nothing. -/
theorem findExact_eq_none {p : ℚ} :
    ∀ {l : List (ℚ × ℚ)}, (∀ e ∈ l, e.1 ≠ p) → findExact l p = none
  | [], _ => rfl
  | e :: rest, h => by
    unfold findExact
    rw [if_neg (h e (List.mem_cons_self e rest))]
    exact findExact_eq_none fun x hx => h x (List.mem_cons_of_mem e hx)

/-- On a strictly sorted table the exact-match scan returns the distance
paired with the matching position. -/
theorem findExact_mem :
    ∀ {l : List (ℚ × ℚ)}, l.Pairwise posLt →
      ∀ {x y p : ℚ}, (x, y) ∈ l → x = p → findExact l p = some y := by
  intro l
  induction l with
  | nil =>
    intro _ x y p hmem _
    exact absurd hmem (List.not_mem_nil _)
  | cons e rest ih =>
    intro hp x y p hmem hxp
    subst hxp
    rcases List.mem_cons.mp hmem with heq | hmem'
    · rw [← heq]
      unfold findExact
      rw [if_pos rfl]
    · have hlt : e.1 < x := (List.pairwise_cons.mp hp).1 _ hmem'
      unfold findExact
      rw [if_neg (ne_of_lt hlt)]
      exact ih (List.pairwise_cons.mp hp).2 hmem' rfl

/-- On a sorted table every position is at most the last position. -/
theorem mem_le_getLastD :
    ∀ {e0 : ℚ × ℚ} {rest : List (ℚ × ℚ)}, List.Chain' posLt (e0 :: rest) →
      ∀ e ∈ e0 :: rest, e.1 ≤ (rest.getLastD e0).1 := by
  intro e0 rest
  induction rest generalizing e0 with
  | nil =>
    intro _ e he
    rw [List.mem_singleton.mp he]
    exact le_rfl
  | cons e1 rest' ih =>
    intro hc e he
    have h01 : posLt e0 e1 := (List.chain'_cons.mp hc).1
    have hc1 : List.Chain' posLt (e1 :: rest') := (List.chain'_cons.mp hc).2
    rw [List.getLastD_cons]
    rcases List.mem_cons.mp he with heq | hmem
    · rw [heq]
      exact le_trans h01.le (ih hc1 e1 (List.mem_cons_self _ _))
    · exact ih hc1 e hmem

/-- The interpolation scan skips every adjacent pair left of the
bracketing one and evaluates the bracketing pair's interpolation. -/
theorem interpScan_bracket {p : ℚ} {a b : ℚ × ℚ} {l2 : List (ℚ × ℚ)}
    (hap : a.1 < p) (hpb : p < b.1) :
    ∀ l1 : List (ℚ × ℚ), (∀ e ∈ l1, e.1 < p) →
      interpScan (l1 ++ a :: b :: l2) p =
        a.2 + (b.2 - a.2) * (p - a.1) / (b.1 - a.1) := by
  intro l1
  induction l1 with
  | nil =>
    intro _
    simp only [List.nil_append]
    unfold interpScan
    rw [if_pos ⟨hap, hpb⟩]
  | cons f l1' ih =>
    intro h
    cases l1' with
    | nil =>
      simp only [List.cons_append, List.nil_append]
      unfold interpScan
      rw [if_neg (fun hcon => absurd hcon.2 (not_lt.mpr hap.le))]
      simpa using ih (fun e he => absurd he (List.not_mem_nil e))
    | cons f2 l1'' =>
      have hf2 : f2.1 < p := h f2 (List.mem_cons_of_mem f (List.mem_cons_self _ _))
      simp only [List.cons_append]
      unfold interpScan
      rw [if_neg (fun hcon => absurd hcon.2 (not_lt.mpr hf2.le))]
      simpa [List.cons_append] using ih (fun e he => h e (List.mem_cons_of_mem f he))

/-- Exact-match case of the query rule. -/
theorem getNearestDistance_exact {e0 : ℚ × ℚ} {rest : List (ℚ × ℚ)}
    (hp : (e0 :: rest).Pairwise posLt) {x y p : ℚ}
    (hmem : (x, y) ∈ e0 :: rest) (hxp : x = p) :
    getNearestDistance (e0 :: rest) p = y := by
  unfold getNearestDistance
  simp only [findExact_mem hp hmem hxp]

/-- At or below the first position the query clamps to the first
distance. -/
theorem getNearestDistance_le_head {e0 : ℚ × ℚ} {rest : List (ℚ × ℚ)} {p : ℚ}
    (hc : List.Chain' posLt (e0 :: rest)) (hle : p ≤ e0.1) :
    getNearestDistance (e0 :: rest) p = e0.2 := by
  have hp := chain'_posLt_pairwise hc
  by_cases hx : e0.1 = p
  · exact getNearestDistance_exact hp (List.mem_cons_self e0 rest) hx
  · have hlt : p < e0.1 := lt_of_le_of_ne hle fun h => hx h.symm
    have hnone : findExact (e0 :: rest) p = none := by
      apply findExact_eq_none
      intro e he
      rcases List.mem_cons.mp he with heq | hm
      · rw [heq]
        exact ne_of_gt hlt
      · exact ne_of_gt (lt_trans hlt ((List.pairwise_cons.mp hp).1 e hm))
    unfold getNearestDistance
    simp only [hnone]
    rw [if_pos hle]

/-- At or above the last position the query clamps to the last
distance. -/
theorem getNearestDistance_ge_last {e0 : ℚ × ℚ} {rest : List (ℚ × ℚ)} {p : ℚ}
    (hc : List.Chain' posLt (e0 :: rest)) (hge : (rest.getLastD e0).1 ≤ p) :
    getNearestDistance (e0 :: rest) p = (rest.getLastD e0).2 := by
  have hp := chain'_posLt_pairwise hc
  by_cases hx : (rest.getLastD e0).1 = p
  · exact getNearestDistance_exact hp (List.getLastD_mem_cons rest e0) hx
  · have hlt : (rest.getLastD e0).1 < p := lt_of_le_of_ne hge hx
    have hnone : findExact (e0 :: rest) p = none := by
      apply findExact_eq_none
      intro e he
      exact ne_of_lt (lt_of_le_of_lt (mem_le_getLastD hc e he) hlt)
    have hne0 : ¬ p ≤ e0.1 :=
      not_le.mpr (lt_of_le_of_lt
        (mem_le_getLastD hc e0 (List.mem_cons_self _ _)) hlt)
    unfold getNearestDistance
    simp only [hnone]
    rw [if_neg hne0, if_pos hge]

/-- Strictly between two adjacent positions the query interpolates the
bracketing pair. -/
theorem getNearestDistance_bracket (l1 l2 : List (ℚ × ℚ)) (a b : ℚ × ℚ) (p : ℚ)
    (hc : List.Chain' posLt (l1 ++ a :: b :: l2)) (hap : a.1 < p) (hpb : p < b.1) :
    getNearestDistance (l1 ++ a :: b :: l2) p =
      a.2 + (b.2 - a.2) * (p - a.1) / (b.1 - a.1) := by
  have hp := chain'_posLt_pairwise hc
  obtain ⟨hp1, hp2, hp12⟩ := List.pairwise_append.mp hp
  have hfront : ∀ e ∈ l1, e.1 < p := fun e he =>
    lt_trans (hp12 e he a (List.mem_cons_self _ _)) hap
  have hl2 : ∀ e ∈ l2, b.1 < e.1 :=
    (List.pairwise_cons.mp (List.pairwise_cons.mp hp2).2).1
  have hnone : findExact (l1 ++ a :: b :: l2) p = none := by
    apply findExact_eq_none
    intro e he
    rcases List.mem_append.mp he with h1 | h2
    · exact ne_of_lt (hfront e h1)
    · rcases List.mem_cons.mp h2 with heq | h3
      · rw [heq]
        exact ne_of_lt hap
      rcases List.mem_cons.mp h3 with heq | h4
      · rw [heq]
        exact ne_of_gt hpb
      · exact ne_of_gt (lt_trans hpb (hl2 e h4))
  have hbmem : b ∈ l1 ++ a :: b :: l2 := by simp
  cases l1 with
  | nil =>
    simp only [List.nil_append] at hc hnone hbmem ⊢
    have hlast : ¬ ((b :: l2).getLastD a).1 ≤ p :=
      not_le.mpr (lt_of_lt_of_le hpb (mem_le_getLastD hc b hbmem))
    unfold getNearestDistance
    simp only [hnone]
    rw [if_neg (not_le.mpr hap), if_neg hlast]
    simpa using interpScan_bracket hap hpb [] (fun e he => absurd he (List.not_mem_nil e))
  | cons f l1' =>
    have hfp : f.1 < p := hfront f (List.mem_cons_self _ _)
    simp only [List.cons_append] at hc hnone hbmem ⊢
    have hlast : ¬ (((l1' ++ a :: b :: l2)).getLastD f).1 ≤ p :=
      not_le.mpr (lt_of_lt_of_le hpb (mem_le_getLastD hc b hbmem))
    unfold getNearestDistance
    simp only [hnone]
    rw [if_neg (not_le.mpr hfp), if_neg hlast]
    have hfl : ∀ e ∈ f :: l1', e.1 < p := fun e he => hfront e he
    simpa [List.cons_append] using interpScan_bracket hap hpb (f :: l1') hfl

/-- Interpolating upward between two positive distances stays positive. -/
theorem interp_pos {y1 y2 x1 x2 p : ℚ} (h0 : 0 < y1) (h12 : y1 ≤ y2)
    (hx1 : x1 < p) (hxx : x1 < x2) :
    0 < y1 + (y2 - y1) * (p - x1) / (x2 - x1) := by
  have h : 0 ≤ (y2 - y1) * (p - x1) / (x2 - x1) :=
    div_nonneg (mul_nonneg (by linarith) (by linarith)) (by linarith)
  linarith

/-- The generated coarse table is strictly increasing in position. -/
theorem lookupTable_chain : List.Chain' posLt lookupTable := by
  norm_num [lookupTable, List.chain'_cons, posLt]

/-- Every query against the generated coarse table returns a strictly
positive distance (its distances are positive and increasing), so the
`lookup_distance > 0` guard of `apply_distance_correction` always holds
for it. -/
theorem lookupTable_pos (p : ℚ) : 0 < getNearestDistance lookupTable p := by
  have hc : List.Chain' posLt lookupTable := lookupTable_chain
  unfold lookupTable at hc ⊢
  have hp := chain'_posLt_pairwise hc
  rcases le_or_lt p 10.50 with h1 | h1
  · rw [getNearestDistance_le_head hc h1]
    norm_num
  rcases le_or_lt 50.15 p with h2 | h2
  · rw [getNearestDistance_ge_last hc h2]
    exact (by norm_num : (0 : ℚ) < 50.12)
  rcases lt_trichotomy p 20.75 with h3 | h3 | h3
  · have hb := getNearestDistance_bracket [] [(30.25, 30.22), (40.00, 40.03), (50.15, 50.12)]
      (10.50, 10.45) (20.75, 20.78) p hc h1 h3
    simp only [List.nil_append] at hb
    rw [hb]
    exact interp_pos (by norm_num) (by norm_num) h1 (by norm_num)
  · rw [getNearestDistance_exact hp (show ((20.75 : ℚ), (20.78 : ℚ)) ∈ _ by norm_num) h3.symm]
    norm_num
  rcases lt_trichotomy p 30.25 with h4 | h4 | h4
  · have hb := getNearestDistance_bracket [(10.50, 10.45)] [(40.00, 40.03), (50.15, 50.12)]
      (20.75, 20.78) (30.25, 30.22) p hc h3 h4
    simp only [List.cons_append, List.nil_append] at hb
    rw [hb]
    exact interp_pos (by norm_num) (by norm_num) h3 (by norm_num)
  · rw [getNearestDistance_exact hp (show ((30.25 : ℚ), (30.22 : ℚ)) ∈ _ by norm_num) h4.symm]
    norm_num
  rcases lt_trichotomy p 40.00 with h5 | h5 | h5
  · have hb := getNearestDistance_bracket [(10.50, 10.45), (20.75, 20.78)] [(50.15, 50.12)]
      (30.25, 30.22) (40.00, 40.03) p hc h4 h5
    simp only [List.cons_append, List.nil_append] at hb
    rw [hb]
    exact interp_pos (by norm_num) (by norm_num) h4 (by norm_num)
  · rw [getNearestDistance_exact hp (show ((40.00 : ℚ), (40.03 : ℚ)) ∈ _ by norm_num) h5.symm]
    norm_num
  · have hb := getNearestDistance_bracket [(10.50, 10.45), (20.75, 20.78), (30.25, 30.22)] []
      (40.00, 40.03) (50.15, 50.12) p hc h5 h2
    simp only [List.cons_append, List.nil_append] at hb
    rw [hb]
    exact interp_pos (by norm_num) (by norm_num) h5 (by norm_num)

/-- C7: against a non-empty strictly increasing coarse table, the query
returns the paired distance on an exact position match; clamps to the
first distance at or below the first position; clamps to the last
distance at or above the last position; and linearly interpolates
between the two bracketing adjacent entries otherwise.  In particular,
for the table (10.50→10.45), (20.75→20.78), position 15.625 yields
15.615 and position 5 yields 10.45. -/
theorem C7_query_rule (e0 : ℚ × ℚ) (rest : List (ℚ × ℚ)) (p : ℚ)
    (hs : List.Chain' posLt (e0 :: rest)) :
    (∀ x y : ℚ, (x, y) ∈ e0 :: rest → x = p →
        getNearestDistance (e0 :: rest) p = y) ∧
    (p ≤ e0.1 → getNearestDistance (e0 :: rest) p = e0.2) ∧
    ((rest.getLastD e0).1 ≤ p →
        getNearestDistance (e0 :: rest) p = (rest.getLastD e0).2) ∧
    (∀ (l1 l2 : List (ℚ × ℚ)) (a b : ℚ × ℚ), e0 :: rest = l1 ++ a :: b :: l2 →
        a.1 < p → p < b.1 →
        getNearestDistance (e0 :: rest) p =
          a.2 + (b.2 - a.2) * (p - a.1) / (b.1 - a.1)) ∧
    getNearestDistance [((10.50 : ℚ), (10.45 : ℚ)), ((20.75 : ℚ), (20.78 : ℚ))]
      (15.625 : ℚ) = (15.615 : ℚ) ∧
    getNearestDistance [((10.50 : ℚ), (10.45 : ℚ)), ((20.75 : ℚ), (20.78 : ℚ))]
      (5 : ℚ) = (10.45 : ℚ) := by
  refine ⟨fun x y hmem hxp =>
      getNearestDistance_exact (chain'_posLt_pairwise hs) hmem hxp,
    fun hle => getNearestDistance_le_head hs hle,
    fun hge => getNearestDistance_ge_last hs hge,
    fun l1 l2 a b heq hap hpb => ?_, ?_, ?_⟩
  · rw [heq] at hs ⊢
    exact getNearestDistance_bracket l1 l2 a b p hs hap hpb
  · have hc2 : List.Chain' posLt
        [((10.50 : ℚ), (10.45 : ℚ)), ((20.75 : ℚ), (20.78 : ℚ))] := by
      norm_num [List.chain'_cons, posLt]
    have hb := getNearestDistance_bracket [] [] (10.50, 10.45) (20.75, 20.78)
      15.625 hc2 (by norm_num) (by norm_num)
    simp only [List.nil_append] at hb
    rw [hb]
    norm_num
  · have hc2 : List.Chain' posLt
        [((10.50 : ℚ), (10.45 : ℚ)), ((20.75 : ℚ), (20.78 : ℚ))] := by
      norm_num [List.chain'_cons, posLt]
    rw [getNearestDistance_le_head hc2 (by norm_num)]

/-- Witness for C7: the two-entry table is strictly increasing, the
below-first query hypothesis holds at position 5, and the query clamps
to 10.45. -/
theorem C7_query_rule_witness :
    List.Chain' posLt [((10.50 : ℚ), (10.45 : ℚ)), ((20.75 : ℚ), (20.78 : ℚ))] ∧
    getNearestDistance [((10.50 : ℚ), (10.45 : ℚ)), ((20.75 : ℚ), (20.78 : ℚ))]
      (5 : ℚ) = (10.45 : ℚ) :=
  ⟨by norm_num [List.chain'_cons, posLt],
   (C7_query_rule (10.50, 10.45) [(20.75, 20.78)] 5
      (by norm_num [List.chain'_cons, posLt])).2.1 (by norm_num)⟩

/-- C8: with both tables configured, `apply_distance_correction` first
applies the fine-grained correction, then queries the coarse table with
that corrected value, and returns the coarse result exactly when the two
differ by more than 2 mm, the fine-grained result otherwise — for the
configured coarse table the code's positivity guard on the lookup result
always holds, so this is the complete behaviour. -/
theorem C8_correction_rule (applyCorrectedDistance : ℚ → ℚ)
    (raw_distance_mm : ℚ) :
    apply_distance_correction applyCorrectedDistance lookupTable raw_distance_mm =
      (let corrected := applyCorrectedDistance raw_distance_mm
       let lookup := getNearestDistance lookupTable corrected
       let difference :=
         if corrected < lookup then lookup - corrected else corrected - lookup
       if 2 < difference then lookup else corrected) := by
  have hpos := lookupTable_pos (applyCorrectedDistance raw_distance_mm)
  simp only [apply_distance_correction]
  rw [if_pos hpos]

/-- C10: the coarse result is adopted only when it is strictly positive:
with both tables, a non-positive lookup (such as the -1 empty-table
sentinel) leaves the fine-grained corrected value in force no matter how
far apart the two results are, and in the single-table configuration a
non-positive lookup returns the raw input unchanged. -/
theorem C10_nonpositive_lookup_is_ignored (applyCorrectedDistance : ℚ → ℚ)
    (table : List (ℚ × ℚ)) (raw_distance_mm : ℚ) :
    (getNearestDistance table (applyCorrectedDistance raw_distance_mm) ≤ 0 →
      apply_distance_correction applyCorrectedDistance table raw_distance_mm =
        applyCorrectedDistance raw_distance_mm) ∧
    (getNearestDistance table raw_distance_mm ≤ 0 →
      apply_distance_correction_lookup_only table raw_distance_mm =
        raw_distance_mm) ∧
    getNearestDistance [] raw_distance_mm = -1 := by
  refine ⟨fun h => ?_, fun h => ?_, rfl⟩
  · simp only [apply_distance_correction]
    rw [if_neg (not_lt.mpr h)]
  · simp only [apply_distance_correction_lookup_only]
    rw [if_neg (not_lt.mpr h)]

/-- Witness for C10: against the empty table the lookup yields -1 ≤ 0
and the identity fine-correction's value 7 is kept. -/
theorem C10_nonpositive_lookup_is_ignored_witness :
    getNearestDistance [] (id (7 : ℚ)) ≤ 0 ∧
    apply_distance_correction id [] 7 = id (7 : ℚ) :=
  ⟨by norm_num [getNearestDistance],
   (C10_nonpositive_lookup_is_ignored id [] 7).1 (by norm_num [getNearestDistance])⟩

end SensorComparison
